import Mathlib

open scoped List

/-!
Verification of the tyagachi transport-analytics collector.

This file gives a shallow embedding, in Lean 4, of the parts of the
repository that the specification's claims are about:

* `src/tyagachi/src/web/shifts.py` — the shift ("window") splitter;
* `src/tyagachi/src/api/client.py` — the retrying HTTP client;
* `src/tyagachi/src/api/fetcher.py` — task extraction, task interleaving,
  round-robin task distribution, and the sequential / parallel collectors;
* `src/tyagachi/src/parsers/monitoring_parser.py` — the result parser and
  track decimation.

Timestamps (Python `datetime` values) are embedded as natural numbers
counting seconds since 01.01.0001 00:00:00 in the proleptic Gregorian
calendar, exactly the calendar used by Python's `datetime.toordinal`
(ordinal of 01.01.0001 is 1).  Python datetimes in this code path carry
second (in fact minute) granularity; the embedding at second resolution
covers every value the program manipulates.
-/

namespace Calendar

/-- Proleptic Gregorian leap-year test, as used by `datetime`. -/
def isLeapYear (y : Nat) : Bool :=
  y % 4 == 0 && (y % 100 != 0 || y % 400 == 0)

/-- Number of days in month `m` (1..12) of year `y`. -/
def daysInMonth (y m : Nat) : Nat :=
  if m = 2 then (if isLeapYear y then 29 else 28)
  else if m = 4 ∨ m = 6 ∨ m = 9 ∨ m = 11 then 30
  else 31

/-- Days in the months strictly before month `m` of year `y`. -/
def daysBeforeMonth (y : Nat) : Nat → Nat
  | 0 => 0
  | 1 => 0
  | m + 1 => daysBeforeMonth y m + daysInMonth y m

/-- Ordinal day number of the date `d.m.y`, with 01.01.0001 ↦ 1; this is
Python's `datetime.toordinal`. -/
def dayOrdinal (y m d : Nat) : Nat :=
  (y - 1) * 365 + (y - 1) / 4 - (y - 1) / 100 + (y - 1) / 400
    + daysBeforeMonth y m + d

/-- Seconds since 01.01.0001 00:00:00 of the datetime `d.m.y hh:mi:ss`. -/
def epochSeconds (d m y hh mi ss : Nat) : Nat :=
  (dayOrdinal y m d - 1) * 86400 + hh * 3600 + mi * 60 + ss

end Calendar

namespace Shifts

/-!
Embedding of `src/tyagachi/src/web/shifts.py`.

Shift schedule (module constants `MORNING_START = (7, 30)`,
`MORNING_END = EVENING_START = (19, 30)`, `EVENING_END = (7, 30)`):
morning = [07:30, 19:30) of a day, evening = [19:30, 07:30 next day).
-/

/-- Hour component of a timestamp (`dt.hour`). -/
def hourOf (t : Nat) : Nat := t % 86400 / 3600

/-- Minute component of a timestamp (`dt.minute`). -/
def minuteOf (t : Nat) : Nat := t % 86400 % 3600 / 60

/-- Day component of a timestamp: its `toordinal` minus one. -/
def dayOf (t : Nat) : Nat := t / 86400

/-- The value `hour * 60 + minute` computed by `get_shift_type`. -/
def timeVal (t : Nat) : Nat := hourOf t * 60 + minuteOf t

inductive ShiftType where
  | morning
  | evening
deriving DecidableEq, Repr

/-- Embedding of `get_shift_type`: morning iff `450 <= time_val < 1170`. -/
def get_shift_type (t : Nat) : ShiftType :=
  if 450 ≤ timeVal t ∧ timeVal t < 1170 then .morning else .evening

/-- A shift key.  The source builds the string
`f"{shift_date:%d.%m.%Y}_{shift_type}"`; days and shift types are in
bijection with these strings on the datetime domain, so the key is
embedded as the pair (ordinal day of `shift_date`, shift type). -/
structure ShiftKey where
  day : Nat
  stype : ShiftType
deriving DecidableEq, Repr

/-- Embedding of `get_shift_key`.  For an evening time before 07:30 the
shift started the previous day (`dt - timedelta(days=1)`). -/
def get_shift_key (t : Nat) (st : ShiftType) : ShiftKey :=
  match st with
  | .evening =>
      if hourOf t < 7 ∨ (hourOf t = 7 ∧ minuteOf t < 30) then
        ⟨dayOf t - 1, .evening⟩
      else
        ⟨dayOf t, .evening⟩
  | .morning => ⟨dayOf t, .morning⟩

/-- Embedding of `get_shift_boundaries`: the full (un-clipped) window of a
shift key.  Morning: [day 07:30, day 19:30); evening: [day 19:30,
next day 07:30). -/
def get_shift_boundaries (k : ShiftKey) : Nat × Nat :=
  match k.stype with
  | .morning => (k.day * 86400 + 450 * 60, k.day * 86400 + 1170 * 60)
  | .evening => (k.day * 86400 + 1170 * 60, (k.day + 1) * 86400 + 450 * 60)

/-- One element of the list returned by `split_period_into_shifts` (the
`label` entry, a pure rendering of `key`, is omitted). -/
structure Shift where
  key : ShiftKey
  from_dt : Nat
  to_dt : Nat
  actual_from : Nat
  actual_to : Nat
deriving DecidableEq, Repr

/-- The loop body of `split_period_into_shifts`, with explicit fuel.  Each
iteration advances `current` to the strictly larger `shift_end`
(see `lt_boundary_end`), so `to_dt - from_dt` iterations always suffice;
the fuel never runs out on the values the wrapper passes. -/
def splitGo : Nat → Nat → Nat → List Shift
  | 0, _, _ => []
  | fuel + 1, current, to_dt =>
    if current < to_dt then
      let st := get_shift_type current
      let k := get_shift_key current st
      let b := get_shift_boundaries k
      let actual_from := max current b.1
      let actual_to := min to_dt b.2
      let rest := splitGo fuel b.2 to_dt
      if actual_from < actual_to then
        { key := k, from_dt := b.1, to_dt := b.2,
          actual_from := actual_from, actual_to := actual_to } :: rest
      else rest
    else []

/-- Embedding of `split_period_into_shifts`. -/
def split_period_into_shifts (from_dt to_dt : Nat) : List Shift :=
  splitGo (to_dt - from_dt) from_dt to_dt

/-- The clipped windows of a shift list tile the interval `[f, t)`
exactly: each shift's window starts where the previous one ended, is
non-empty, the first starts at `f` and the last ends at `t`. -/
def chainFrom : Nat → List Shift → Nat → Prop
  | f, [], t => f = t
  | f, s :: rest, t =>
      s.actual_from = f ∧ f < s.actual_to ∧ chainFrom s.actual_to rest t

end Shifts

namespace Client

/-!
Embedding of `APIClient._make_request` from `src/tyagachi/src/api/client.py`.

One call of `_make_request` is driven by the sequence of transport-level
responses the remote service gives to the successive HTTP attempts; that
sequence is the oracle `resps : Nat → Resp` (`resps i` answers the
`i`-th `requests.post` call).
-/

/-- Transport-level result of one HTTP attempt. -/
inductive Resp where
  | ok (body : Nat)
  | http (code : Nat)
  | timeout
  | reqError
  | badJson
deriving DecidableEq, Repr

/-- Reason of the `RuntimeError` raised by `_make_request`. -/
inductive FatalReason where
  | rateLimited
  | requestFailed
deriving DecidableEq, Repr

/-- Caller-visible outcome of `_make_request`: the returned JSON body, the
`NotFoundError` raised on 404, or the `RuntimeError` raised otherwise. -/
inductive Outcome where
  | success (body : Nat)
  | notFound
  | fatal (r : FatalReason)
deriving DecidableEq, Repr

/-- Observable trace of one `_make_request` call: its outcome, the number
of HTTP requests issued, the rate-limit sleeps (seconds, in order) and the
exponential-backoff sleeps (seconds, in order). -/
structure RunResult where
  outcome : Outcome
  requests : Nat
  waits : List Nat
  backoffs : List Nat
deriving DecidableEq, Repr

/-- Source constant `max_rate_limit_retries = 5`. -/
def maxRateLimitRetries : Nat := 5

/-- The retry loop of `_make_request`, with explicit fuel.  State:
`attempt` and `rate_limit_retries` as in the source, `reqIdx` counts the
HTTP requests already issued, `waits`/`backoffs` accumulate the sleeps.
Every iteration either returns, increments `attempt` (the loop exits once
`attempt = retryCount`), or increments `rlr` (the iteration with
`rlr = 5` returns), so `retryCount + 6` iterations always suffice and the
fuel never runs out on the values the wrapper passes. -/
def mrGo (resps : Nat → Resp) (retryCount : Nat) :
    Nat → Nat → Nat → Nat → List Nat → List Nat → RunResult
  | 0, _, _, reqIdx, waits, backoffs =>
      ⟨.fatal .requestFailed, reqIdx, waits, backoffs⟩
  | fuel + 1, attempt, rlr, reqIdx, waits, backoffs =>
      if attempt < retryCount then
        match resps reqIdx with
        | .ok body => ⟨.success body, reqIdx + 1, waits, backoffs⟩
        | .http code =>
            if code = 404 then ⟨.notFound, reqIdx + 1, waits, backoffs⟩
            else if code = 429 then
              if rlr + 1 > maxRateLimitRetries then
                ⟨.fatal .rateLimited, reqIdx + 1, waits, backoffs⟩
              else
                mrGo resps retryCount fuel attempt (rlr + 1) (reqIdx + 1)
                  (waits ++ [10 * (rlr + 1)]) backoffs
            else
              mrGo resps retryCount fuel (attempt + 1) rlr (reqIdx + 1) waits
                (if attempt + 1 < retryCount then backoffs ++ [2 ^ attempt]
                 else backoffs)
        | .timeout =>
            mrGo resps retryCount fuel (attempt + 1) rlr (reqIdx + 1) waits
              (if attempt + 1 < retryCount then backoffs ++ [2 ^ attempt]
               else backoffs)
        | .reqError =>
            mrGo resps retryCount fuel (attempt + 1) rlr (reqIdx + 1) waits
              (if attempt + 1 < retryCount then backoffs ++ [2 ^ attempt]
               else backoffs)
        | .badJson => ⟨.fatal .requestFailed, reqIdx + 1, waits, backoffs⟩
      else ⟨.fatal .requestFailed, reqIdx, waits, backoffs⟩

/-- Embedding of `_make_request` with attempt budget `retryCount`
(config `retry_count`, default 3), driven by the response oracle. -/
def make_request (retryCount : Nat) (resps : Nat → Resp) : RunResult :=
  mrGo resps retryCount (retryCount + 6) 0 0 0 [] []

/-- A remote service that answers 429 to the first five requests and then
succeeds. -/
def fiveTimes429ThenOk : Nat → Resp :=
  fun i => if i < 5 then .http 429 else .ok 0

/-- A remote service that always answers 429. -/
def always429 : Nat → Resp := fun _ => .http 429

end Client

namespace Parser

/-!
Embedding of `src/tyagachi/src/parsers/monitoring_parser.py`.

Raw JSON numbers are embedded as `Option ℚ` (absent field ↦ `none`), raw
duration fields (whole seconds) as `Option ℤ`, raw strings as
`Option String`.  Python's `round(x, n)` on floats is embedded as exact
rational rounding to `n` decimals (`roundTo2`/`roundTo1`); the embedding
and the float computation agree except on ties at the last kept digit,
which no claim depends on.
-/

/-- Splits a character list on a separator character; `splitOnChar sep s`
mirrors splitting the string with `s.split(sep)`. -/
def splitOnChar (sep : Char) : List Char → List (List Char)
  | [] => [[]]
  | c :: cs =>
      let r := splitOnChar sep cs
      if c = sep then [] :: r
      else
        match r with
        | x :: xs => (c :: x) :: xs
        | [] => [[c]]

/-- Numeric value of a non-empty all-digit character list, else `none`. -/
def digitsToNat : List Char → Option Nat
  | [] => none
  | cs =>
      if cs.all Char.isDigit then
        some (cs.foldl (fun a c => a * 10 + (c.toNat - 48)) 0)
      else none

/-- Parses `DD.MM.YYYY` into (day, month, year), validating ranges the way
`datetime.strptime` does. -/
def parseDMY (cs : List Char) : Option (Nat × Nat × Nat) :=
  match splitOnChar (Char.ofNat 46) cs with
  | [ds, ms, ys] =>
      match digitsToNat ds, digitsToNat ms, digitsToNat ys with
      | some d, some m, some y =>
          if 1 ≤ m ∧ m ≤ 12 ∧ 1 ≤ d ∧ d ≤ Calendar.daysInMonth y m
              ∧ 1 ≤ y ∧ y ≤ 9999 then
            some (d, m, y)
          else none
      | _, _, _ => none
  | _ => none

/-- Embedding of `_parse_datetime`: tries `DD.MM.YYYY HH:MM:SS`, then
`DD.MM.YYYY HH:MM`; empty or non-matching strings give `none`.  The result
is the instant in seconds.  `datetime.strptime` is abstracted by
splitting on spaces, dots and colons with digit and range checks. -/
def _parse_datetime (s : String) : Option Nat :=
  match splitOnChar (Char.ofNat 32) s.data with
  | [ds, ts] =>
      match parseDMY ds with
      | none => none
      | some (d, m, y) =>
          match splitOnChar (Char.ofNat 58) ts with
          | [hs, mis, ses] =>
              match digitsToNat hs, digitsToNat mis, digitsToNat ses with
              | some h, some mi, some se =>
                  if h ≤ 23 ∧ mi ≤ 59 ∧ se ≤ 59 then
                    some (Calendar.epochSeconds d m y h mi se)
                  else none
              | _, _, _ => none
          | [hs, mis] =>
              match digitsToNat hs, digitsToNat mis with
              | some h, some mi =>
                  if h ≤ 23 ∧ mi ≤ 59 then
                    some (Calendar.epochSeconds d m y h mi 0)
                  else none
              | _, _ => none
          | _ => none
  | _ => none

/-- Source constant `TRACK_SIMPLIFY_INTERVAL_MIN = 20`. -/
def TRACK_SIMPLIFY_INTERVAL_MIN : ℤ := 20

/-- A track point as assembled by `parse_monitoring` before decimation
(`lat`/`lon` present, `time` a string defaulting to empty, `speed`
optional). -/
structure TrackPoint where
  lat : ℚ
  lon : ℚ
  time : String
  speed : Option ℚ
deriving DecidableEq, Repr

/-- The interior loop of `_simplify_track` over `track[1:-1]`, carrying
`last_time`.  The source compares `delta_minutes >= interval_minutes`
with `delta_minutes = (point_time - last_time).total_seconds() / 60`;
over exact numbers that is `point_time - last_time >= 60 * interval`. -/
def simplifyGo (interval : ℤ) : List TrackPoint → Option Nat → List TrackPoint
  | [], _ => []
  | p :: rest, lastTime =>
      match _parse_datetime p.time, lastTime with
      | some pt, some lt =>
          if (pt : ℤ) - (lt : ℤ) ≥ 60 * interval then
            p :: simplifyGo interval rest (some pt)
          else simplifyGo interval rest lastTime
      | some pt, none => p :: simplifyGo interval rest (some pt)
      | none, lt => simplifyGo interval rest lt

/-- Embedding of `_simplify_track`: tracks of at most two points are
returned unchanged; otherwise the first point is always kept, interior
points are kept at least `interval_minutes` apart, and the last point is
always kept. -/
def _simplify_track (track : List TrackPoint)
    (interval_minutes : ℤ) : List TrackPoint :=
  if track.length ≤ 2 then track
  else
    match track with
    | [] => []
    | p0 :: rest =>
        match rest.getLast? with
        | some plast =>
            p0 :: (simplifyGo interval_minutes rest.dropLast
                    (_parse_datetime p0.time) ++ [plast])
        | none => [p0]

/-- One element of the raw `fuels` array. -/
structure RawFuel where
  fuelName : Option String
  charges : Option ℚ
  discharges : Option ℚ
  rate : Option ℚ
  valueBegin : Option ℚ
  valueEnd : Option ℚ
deriving DecidableEq, Repr

/-- One element of the raw `parkings` array. -/
structure RawParking where
  begin : Option String
  end_ : Option String
  address : String
  lon : Option ℚ
  lat : Option ℚ
deriving DecidableEq, Repr

/-- One element of the raw `track` array. -/
structure RawTrackEntry where
  lat : Option ℚ
  lon : Option ℚ
  time : Option String
  speed : Option ℚ
deriving DecidableEq, Repr

/-- The raw `getMonitoringStats` response body, to the depth
`parse_monitoring` inspects it. -/
structure RawMonitoring where
  moUid : Option String
  nameMO : Option String
  distance : Option ℚ
  movingTime : Option ℤ
  engineTime : Option ℤ
  engineIdlingTime : Option ℤ
  lastActivityTime : Option String
  fuels : List RawFuel
  parkings : List RawParking
  track : List RawTrackEntry
deriving DecidableEq, Repr

/-- Output fuel record (`result['mon_fuels']` element). -/
structure FuelOut where
  name : Option String
  charges : Option ℚ
  discharges : Option ℚ
  rate : Option ℚ
  value_begin : Option ℚ
  value_end : Option ℚ
deriving DecidableEq, Repr

/-- Output parking record (`result['mon_parkings']` element). -/
structure ParkingOut where
  begin : Option String
  end_ : Option String
  address : String
  duration_min : Option ℚ
  lat : Option ℚ
  lon : Option ℚ
deriving DecidableEq, Repr

/-- The dictionary returned by `parse_monitoring`, one field per key. -/
structure Monitoring where
  mon_mo_uid : Option String
  mon_name_mo : Option String
  mon_distance : Option ℚ
  mon_moving_time : Option ℤ
  mon_engine_time : Option ℤ
  mon_engine_idling_time : Option ℤ
  mon_last_activity : Option String
  mon_moving_time_hours : Option ℚ
  mon_engine_time_hours : Option ℚ
  mon_idling_time_hours : Option ℚ
  mon_fuels : List FuelOut
  mon_fuel_name : Option String
  mon_fuel_charges : Option ℚ
  mon_fuel_discharges : Option ℚ
  mon_fuel_rate : Option ℚ
  mon_fuel_begin : Option ℚ
  mon_fuel_end : Option ℚ
  mon_parkings : List ParkingOut
  mon_parkings_count : Nat
  mon_parkings_total_hours : ℚ
  mon_track : List TrackPoint
deriving DecidableEq, Repr

/-- Exact rounding to two decimals, embedding `round(x, 2)`. -/
def roundTo2 (q : ℚ) : ℚ := ((round (q * 100) : ℤ) : ℚ) / 100

/-- Exact rounding to one decimal, embedding `round(x, 1)`. -/
def roundTo1 (q : ℚ) : ℚ := ((round (q * 10) : ℤ) : ℚ) / 10

/-- The seconds-to-hours conversion applied to the three duration fields:
`if result[k]: result[k_hours] = round(result[k] / 3600, 2) else None`.
Python truthiness makes both a missing field and a 0 value fall to the
`else` branch. -/
def hoursField (v : Option ℤ) : Option ℚ :=
  match v with
  | some x => if x ≠ 0 then some (roundTo2 ((x : ℚ) / 3600)) else none
  | none => none

/-- Parking duration: `round((end - begin).total_seconds() / 60, 1)` when
both bounds parse, else `None` (the event is kept either way). -/
def parkingDuration (p : RawParking) : Option ℚ :=
  match p.begin.bind _parse_datetime, p.end_.bind _parse_datetime with
  | some b, some e => some (roundTo1 ((((e : ℤ) - (b : ℤ)) : ℚ) / 60))
  | _, _ => none

/-- Embedding of `_empty_monitoring`. -/
def _empty_monitoring : Monitoring :=
  { mon_mo_uid := none, mon_name_mo := none, mon_distance := none,
    mon_moving_time := none, mon_engine_time := none,
    mon_engine_idling_time := none, mon_last_activity := none,
    mon_moving_time_hours := none, mon_engine_time_hours := none,
    mon_idling_time_hours := none, mon_fuels := [], mon_fuel_name := none,
    mon_fuel_charges := none, mon_fuel_discharges := none,
    mon_fuel_rate := none, mon_fuel_begin := none, mon_fuel_end := none,
    mon_parkings := [], mon_parkings_count := 0,
    mon_parkings_total_hours := 0, mon_track := [] }

/-- Embedding of `parse_monitoring`.  The argument is `none` when the raw
response is absent, an empty dict or not a dict (the source's
`if not data or not isinstance(data, dict)` guard); otherwise `some`
of the raw structure. -/
def parse_monitoring (data : Option RawMonitoring) : Monitoring :=
  match data with
  | none => _empty_monitoring
  | some d =>
      let fuelsOut := d.fuels.map (fun f =>
        { name := f.fuelName, charges := f.charges,
          discharges := f.discharges, rate := f.rate,
          value_begin := f.valueBegin, value_end := f.valueEnd : FuelOut })
      let parkingsOut := d.parkings.map (fun p =>
        { begin := p.begin, end_ := p.end_, address := p.address,
          duration_min := parkingDuration p, lat := p.lat, lon := p.lon
          : ParkingOut })
      let totalParkingMinutes :=
        (d.parkings.filterMap parkingDuration).sum
      let trackPoints := d.track.filterMap (fun t =>
        match t.lat, t.lon with
        | some la, some lo =>
            some { lat := la, lon := lo, time := t.time.getD "",
                   speed := t.speed : TrackPoint }
        | _, _ => none)
      { mon_mo_uid := d.moUid,
        mon_name_mo := d.nameMO,
        mon_distance := d.distance,
        mon_moving_time := d.movingTime,
        mon_engine_time := d.engineTime,
        mon_engine_idling_time := d.engineIdlingTime,
        mon_last_activity := d.lastActivityTime,
        mon_moving_time_hours := hoursField d.movingTime,
        mon_engine_time_hours := hoursField d.engineTime,
        mon_idling_time_hours := hoursField d.engineIdlingTime,
        mon_fuels := fuelsOut,
        mon_fuel_name := (fuelsOut.head?).bind (fun f => f.name),
        mon_fuel_charges := (fuelsOut.head?).bind (fun f => f.charges),
        mon_fuel_discharges := (fuelsOut.head?).bind (fun f => f.discharges),
        mon_fuel_rate := (fuelsOut.head?).bind (fun f => f.rate),
        mon_fuel_begin := (fuelsOut.head?).bind (fun f => f.value_begin),
        mon_fuel_end := (fuelsOut.head?).bind (fun f => f.value_end),
        mon_parkings := parkingsOut,
        mon_parkings_count := parkingsOut.length,
        mon_parkings_total_hours :=
          if totalParkingMinutes ≠ 0 then roundTo2 (totalParkingMinutes / 60)
          else 0,
        mon_track := _simplify_track trackPoints TRACK_SIMPLIFY_INTERVAL_MIN }

/-- A raw payload whose three duration fields are all 0 seconds. -/
def zeroTimesRaw : RawMonitoring :=
  { moUid := none, nameMO := none, distance := none,
    movingTime := some 0, engineTime := some 0,
    engineIdlingTime := some 0, lastActivityTime := none,
    fuels := [], parkings := [], track := [] }

end Parser

namespace Fetcher

/-!
Embedding of `DataFetcher` from `src/tyagachi/src/api/fetcher.py`.

Network effects are abstracted by a per-task outcome oracle
`Task → TaskOutcome`: what `client.get_monitoring_stats` does for that
task (a successful body, a `NotFoundError`, or any other exception).
Wall-clock effects (`time.time`, `time.sleep`, printing and logging) do
not influence results, traces or callback calls and are not modelled.
-/

/-- One monitoring task as built by `extract_monitoring_tasks`. -/
structure Task where
  pl_id : String
  ts_id_mo : Nat
  ts_reg_number : Option String
  ts_name_mo : Option String
  from_date : String
  to_date : String
deriving DecidableEq, Repr

/-- The aggregate-map key `(task['pl_id'], task['ts_id_mo'])`. -/
def taskKey (t : Task) : String × Nat := (t.pl_id, t.ts_id_mo)

/-- One element of a route list's `ts` array (entries that are not dicts
are skipped by the source and not modelled). -/
structure TSEntry where
  idMO : Option Nat
  regNumber : Option String
  nameMO : Option String
deriving DecidableEq, Repr

/-- One route-list record, to the depth `extract_monitoring_tasks`
inspects it (`pl.get('dateOutPlan', '')` makes a missing date the empty
string). -/
structure PLRecord where
  tsNumber : Option String
  dateOut : Option String
  dateOutPlan : String
  dateInPlan : String
  ts : List TSEntry
deriving DecidableEq, Repr

/-- Python f-string rendering of a possibly-missing value, as in
`f"{pl.get('tsNumber')}_{pl.get('dateOut')}"`. -/
def pyStr (o : Option String) : String :=
  match o with
  | none => "None"
  | some s => s

/-- Embedding of `extract_monitoring_tasks`.  A record is skipped iff its
`dateOutPlan` or `dateInPlan` is empty (Python string truthiness); a `ts`
entry is skipped iff its `idMO` is missing or 0 (truthiness) or its name
fails the vehicle predicate.  The source instantiates `namePred` with a
case-insensitive Russian substring test on `str(ts.get('nameMO', ''))`;
the claims do not depend on that instance, so the predicate is a
parameter (spec §4.2 names it `vehicleTypePredicate`). -/
def extract_monitoring_tasks (pl_list : List PLRecord)
    (namePred : String → Bool) : List Task :=
  (pl_list.map (fun pl =>
    if pl.dateOutPlan = "" ∨ pl.dateInPlan = "" then []
    else
      pl.ts.filterMap (fun ts =>
        match ts.idMO with
        | none => none
        | some i =>
            if i = 0 then none
            else if namePred ((ts.nameMO).getD "") then
              some { pl_id := pyStr pl.tsNumber ++ "_" ++ pyStr pl.dateOut,
                     ts_id_mo := i,
                     ts_reg_number := ts.regNumber,
                     ts_name_mo := ts.nameMO,
                     from_date := pl.dateOutPlan,
                     to_date := pl.dateInPlan }
            else none))).flatten

/-- Appends a task to its vehicle's group, keeping groups in
first-appearance order (the insertion order of the Python dict
`by_vehicle`). -/
def addToGroups (groups : List (Nat × List Task)) (t : Task) :
    List (Nat × List Task) :=
  match groups with
  | [] => [(t.ts_id_mo, [t])]
  | (v, g) :: rest =>
      if v = t.ts_id_mo then (v, g ++ [t]) :: rest
      else (v, g) :: addToGroups rest t

/-- The dict `by_vehicle` of `_reorder_tasks_for_rate_limit`. -/
def by_vehicle (tasks : List Task) : List (Nat × List Task) :=
  tasks.foldl addToGroups []

/-- The `while any(by_vehicle.values())` round-robin loop, with explicit
fuel: one round takes the head of every non-empty group in group order,
then drops those heads.  Every non-final round removes at least one task,
so the total number of tasks bounds the rounds; the fuel never runs out
on the values the wrapper passes. -/
def interleaveGo : Nat → List (List Task) → List Task
  | 0, _ => []
  | fuel + 1, gs =>
      if gs.all List.isEmpty then []
      else gs.filterMap List.head? ++ interleaveGo fuel (gs.map List.tail)

/-- Embedding of `_reorder_tasks_for_rate_limit`. -/
def _reorder_tasks_for_rate_limit (tasks : List Task) : List Task :=
  interleaveGo tasks.length ((by_vehicle tasks).map Prod.snd)

/-- The `for i, task in enumerate(tasks)` queue-filling loop of
`_fetch_monitoring_parallel`: task `i` is appended to queue `i % n`. -/
def distributeGo (n : Nat) : Nat → List Task → List (List Task) → List (List Task)
  | _, [], queues => queues
  | i, t :: rest, queues =>
      distributeGo n (i + 1) rest
        (queues.set (i % n) (queues.getD (i % n) [] ++ [t]))

/-- The `task_queues` built by `_fetch_monitoring_parallel` for `n`
clients. -/
def task_queues (tasks : List Task) (n : Nat) : List (List Task) :=
  distributeGo n 0 tasks (List.replicate n [])

/-- What `client.get_monitoring_stats` does for one task: return a raw
body, raise `NotFoundError`, or raise any other exception. -/
inductive TaskOutcome where
  | success (raw : Parser.RawMonitoring)
  | notFound
  | error
deriving DecidableEq, Repr

/-- The per-task `try/except` of both collector loops: a successful body
is parsed; `NotFoundError` and any other exception store
`parse_monitoring({})` (an empty dict is falsy, so this is the empty
summary). -/
def storeValue (oracle : Task → TaskOutcome) (t : Task) : Parser.Monitoring :=
  match oracle t with
  | .success raw => Parser.parse_monitoring (some raw)
  | .notFound => Parser.parse_monitoring none
  | .error => Parser.parse_monitoring none

/-- Python dict assignment `results[key] = value`: replaces in place if
the key is present, appends otherwise. -/
def dictStore {α β : Type} [DecidableEq α] (m : List (α × β)) (k : α)
    (v : β) : List (α × β) :=
  match m with
  | [] => [(k, v)]
  | (k0, v0) :: rest =>
      if k0 = k then (k0, v) :: rest
      else (k0, v0) :: dictStore rest k v

/-- Python `results.update(local_results)`. -/
def dictUpdate {α β : Type} [DecidableEq α] (m localMap : List (α × β)) :
    List (α × β) :=
  localMap.foldl (fun acc kv => dictStore acc kv.1 kv.2) m

/-- Observable behaviour of one sequential collection run: the results
dict, the keys in request order, and the `(current, total)` arguments of
the successive `progress_callback` invocations. -/
structure SeqRun where
  results : List ((String × Nat) × Parser.Monitoring)
  trace : List (String × Nat)
  callback_calls : List (Nat × Nat)
deriving DecidableEq, Repr

/-- The `for i, task in enumerate(tasks_sorted)` loop of
`_fetch_monitoring_sequential` with a caller-supplied callback: every
iteration stores one value under the task's key and then calls
`progress_callback(i + 1, total)` — on success, `NotFoundError` and
generic exceptions alike. -/
def seqGo (oracle : Task → TaskOutcome) (total : Nat) :
    List Task → Nat → SeqRun → SeqRun
  | [], _, acc => acc
  | t :: rest, i, acc =>
      seqGo oracle total rest (i + 1)
        { results := dictStore acc.results (taskKey t) (storeValue oracle t),
          trace := acc.trace ++ [taskKey t],
          callback_calls := acc.callback_calls ++ [(i + 1, total)] }

/-- Embedding of `_fetch_monitoring_sequential` (with a caller-supplied
progress callback): the task list is first reordered by
`_reorder_tasks_for_rate_limit`, then processed in order. -/
def _fetch_monitoring_sequential (oracle : Task → TaskOutcome)
    (tasks : List Task) : SeqRun :=
  seqGo oracle tasks.length (_reorder_tasks_for_rate_limit tasks) 0 ⟨[], [], []⟩

/-- Observable behaviour of one parallel worker: its `local_results` dict
and the keys in request order. -/
structure WorkerRun where
  results : List ((String × Nat) × Parser.Monitoring)
  trace : List (String × Nat)
deriving DecidableEq, Repr

/-- The `for task in task_list` loop of the nested `worker` function: it
iterates its queue in the given order (no reordering), stores one value
per task, and never invokes `progress_callback` (the shared `completed`
counter only feeds `print`). -/
def workerGo (oracle : Task → TaskOutcome) :
    List Task → WorkerRun → WorkerRun
  | [], acc => acc
  | t :: rest, acc =>
      workerGo oracle rest
        ⟨dictStore acc.results (taskKey t) (storeValue oracle t),
         acc.trace ++ [taskKey t]⟩

/-- Embedding of the nested `worker` function. -/
def worker (oracle : Task → TaskOutcome) (task_list : List Task) : WorkerRun :=
  workerGo oracle task_list ⟨[], []⟩

/-- Observable behaviour of one parallel collection run. -/
structure ParRun where
  results : List ((String × Nat) × Parser.Monitoring)
  callback_calls : List (Nat × Nat)
deriving DecidableEq, Repr

/-- Embedding of `_fetch_monitoring_parallel` with `numTokens` clients:
tasks are distributed over the queues by `i % n`, one worker runs per
queue, and the local dicts are merged with `results.update(...)`.  The
real merge order is the nondeterministic `as_completed` order; the merge
is modelled in worker order, which the claims (key coverage, callback
behaviour) do not depend on.  `progress_callback` is accepted but never
invoked in this path. -/
def _fetch_monitoring_parallel (oracle : Task → TaskOutcome)
    (numTokens : Nat) (tasks : List Task) : ParRun :=
  { results :=
      ((task_queues tasks numTokens).map
        (fun q => (worker oracle q).results)).foldl dictUpdate [],
    callback_calls := [] }

/-- Observable behaviour of `fetch_monitoring_batch`. -/
structure BatchRun where
  results : List ((String × Nat) × Parser.Monitoring)
  callback_calls : List (Nat × Nat)
deriving DecidableEq, Repr

/-- Embedding of `fetch_monitoring_batch`: the parallel path is taken iff
more than one token is configured. -/
def fetch_monitoring_batch (oracle : Task → TaskOutcome)
    (tokens : List String) (tasks : List Task) : BatchRun :=
  if tokens.length > 1 then
    let p := _fetch_monitoring_parallel oracle tokens.length tasks
    ⟨p.results, p.callback_calls⟩
  else
    let s := _fetch_monitoring_sequential oracle tasks
    ⟨s.results, s.callback_calls⟩

/-- A concrete task for the examples below. -/
def mkTask (v : Nat) (p : String) : Task :=
  ⟨p, v, none, none, "01.02.2026 07:30", "01.02.2026 19:30"⟩

/-- The interleaver example of the spec: vehicles 1 (3 tasks), 2 (1 task),
3 (2 tasks) in first-seen order 1,2,1,3,1,3. -/
def exInterleaveTasks : List Task :=
  [mkTask 1 "A1", mkTask 2 "B1", mkTask 1 "A2",
   mkTask 3 "C1", mkTask 1 "A3", mkTask 3 "C2"]

/-- Six tasks whose even-index partition is not interleaver-ordered:
vehicles 1, 9, 1, 9, 2, 9. -/
def exParallelTasks : List Task :=
  [mkTask 1 "p0", mkTask 9 "p1", mkTask 1 "p2",
   mkTask 9 "p3", mkTask 2 "p4", mkTask 9 "p5"]

/-- A service on which every task raises `NotFoundError`. -/
def allNotFound : Task → TaskOutcome := fun _ => .notFound

/-- Route lists with non-empty but degenerate planned windows: an
equal-endpoints window, an unparseable window, and (for contrast) a
record with a missing start that is skipped. -/
def exBadPL : List PLRecord :=
  [ { tsNumber := some "T1", dateOut := some "25.01.2026",
      dateOutPlan := "25.01.2026 08:00", dateInPlan := "25.01.2026 08:00",
      ts := [{ idMO := some 7, regNumber := none,
               nameMO := some "tyagach" }] },
    { tsNumber := some "T2", dateOut := some "26.01.2026",
      dateOutPlan := "garbage", dateInPlan := "more garbage",
      ts := [{ idMO := some 8, regNumber := none,
               nameMO := some "tyagach" }] },
    { tsNumber := some "T3", dateOut := some "27.01.2026",
      dateOutPlan := "", dateInPlan := "27.01.2026 19:30",
      ts := [{ idMO := some 9, regNumber := none,
               nameMO := some "tyagach" }] } ]

end Fetcher

-- ===== end of definitions; theorems follow =====

namespace Shifts

theorem timeVal_eq (t : Nat) : timeVal t = t % 86400 / 60 := by
  unfold timeVal hourOf minuteOf
  omega

/-- The current instant always lies strictly before the end of the shift
found for it. -/
theorem lt_boundary_end (t : Nat) :
    t < (get_shift_boundaries (get_shift_key t (get_shift_type t))).2 := by
  unfold get_shift_type get_shift_key get_shift_boundaries dayOf timeVal hourOf minuteOf
  split_ifs <;> simp_all <;> omega

/-- From 07:30 of day 0 on, the shift found for an instant starts no later
than the instant itself. -/
theorem boundary_start_le (t : Nat) (h : 27000 ≤ t) :
    (get_shift_boundaries (get_shift_key t (get_shift_type t))).1 ≤ t := by
  unfold get_shift_type get_shift_key get_shift_boundaries dayOf timeVal hourOf minuteOf
  split_ifs <;> simp_all <;> omega

theorem splitGo_of_not_lt (fuel c t : Nat) (h : ¬ c < t) :
    splitGo fuel c t = [] := by
  cases fuel <;> simp [splitGo, h]

theorem splitGo_chain (fuel : Nat) :
    ∀ c t : Nat, 27000 ≤ c → c < t → t - c ≤ fuel →
      chainFrom c (splitGo fuel c t) t := by
  induction fuel with
  | zero => intro c t _ hlt hfuel; omega
  | succ n ih =>
      intro c t hc hlt hfuel
      have hend := lt_boundary_end c
      have hstart := boundary_start_le c hc
      simp only [splitGo, if_pos hlt]
      set b := get_shift_boundaries (get_shift_key c (get_shift_type c)) with hb
      have hmax : max c b.1 = c := Nat.max_eq_left hstart
      have hmin : c < min t b.2 := lt_min hlt hend
      rw [hmax, if_pos hmin]
      refine ⟨rfl, hmin, ?_⟩
      by_cases hbt : b.2 < t
      · have hrest := ih b.2 t (le_trans hc (le_of_lt hend)) hbt (by omega)
        have : min t b.2 = b.2 := Nat.min_eq_right (le_of_lt hbt)
        rw [this]
        exact hrest
      · have : min t b.2 = t := Nat.min_eq_left (by omega)
        rw [this, splitGo_of_not_lt n b.2 t hbt]
        simp [chainFrom]

theorem chainFrom_le {f t : Nat} {L : List Shift} (h : chainFrom f L t) :
    f ≤ t := by
  induction L generalizing f with
  | nil => simp [chainFrom] at h; omega
  | cons s rest ih =>
      obtain ⟨_, hlt, hrest⟩ := h
      exact le_trans (le_of_lt hlt) (ih hrest)

theorem chainFrom_start_le {f t : Nat} {L : List Shift}
    (h : chainFrom f L t) : ∀ s ∈ L, f ≤ s.actual_from := by
  induction L generalizing f with
  | nil => intro s hs; cases hs
  | cons a rest ih =>
      obtain ⟨ha, hlt, hrest⟩ := h
      intro s hs
      rcases List.mem_cons.mp hs with rfl | hmem
      · omega
      · exact le_trans (le_of_lt hlt) (ih hrest s hmem)

theorem chainFrom_nonempty {f t : Nat} {L : List Shift}
    (h : chainFrom f L t) : ∀ s ∈ L, s.actual_from < s.actual_to := by
  induction L generalizing f with
  | nil => intro s hs; cases hs
  | cons a rest ih =>
      obtain ⟨ha, hlt, hrest⟩ := h
      intro s hs
      rcases List.mem_cons.mp hs with rfl | hmem
      · omega
      · exact ih hrest s hmem

theorem chainFrom_pairwise {f t : Nat} {L : List Shift}
    (h : chainFrom f L t) :
    L.Pairwise (fun a b => a.actual_to ≤ b.actual_from) := by
  induction L generalizing f with
  | nil => exact List.Pairwise.nil
  | cons a rest ih =>
      obtain ⟨ha, hlt, hrest⟩ := h
      exact List.Pairwise.cons (chainFrom_start_le hrest) (ih hrest)

theorem chainFrom_union {f t : Nat} {L : List Shift}
    (h : chainFrom f L t) :
    ∀ x, (f ≤ x ∧ x < t) ↔ ∃ s ∈ L, s.actual_from ≤ x ∧ x < s.actual_to := by
  induction L generalizing f with
  | nil =>
      simp only [chainFrom] at h
      intro x
      subst h
      simp only [List.not_mem_nil, false_and, exists_false, iff_false]
      omega
  | cons a rest ih =>
      obtain ⟨ha, hlt, hrest⟩ := h
      intro x
      constructor
      · rintro ⟨hfx, hxt⟩
        by_cases hx : x < a.actual_to
        · exact ⟨a, List.mem_cons_self a rest, by omega, hx⟩
        · obtain ⟨s, hs, hsx⟩ := ((ih hrest x).mp ⟨by omega, hxt⟩)
          exact ⟨s, List.mem_cons_of_mem a hs, hsx⟩
      · rintro ⟨s, hs, hsx, hxs⟩
        rcases List.mem_cons.mp hs with rfl | hmem
        · have := chainFrom_le hrest
          omega
        · have h1 := (ih hrest x).mpr ⟨s, hmem, hsx, hxs⟩
          omega



/-- Claim C1: for every pair of datetimes `from_dt < to_dt`, the clipped
windows (`actual_from`/`actual_to`) of the shifts returned by
`split_period_into_shifts` are ordered, contiguous and non-overlapping,
and their union is exactly `[from_dt, to_dt)`.  The hypothesis
`27000 ≤ from_dt` restricts to instants at or after 07:30 of the very
first representable day (01.01.0001): for earlier instants the source
raises `OverflowError` inside `get_shift_key` (`dt - timedelta(days=1)`
underflows `datetime.min`), so no sequence is returned at all; every
real-world timestamp satisfies the hypothesis. -/
theorem claim_C1_split_tiles_period (f t : Nat) (h0 : 27000 ≤ f) (h1 : f < t) :
    chainFrom f (split_period_into_shifts f t) t
    ∧ (∀ s ∈ split_period_into_shifts f t, s.actual_from < s.actual_to)
    ∧ (split_period_into_shifts f t).Pairwise
        (fun a b => a.actual_to ≤ b.actual_from)
    ∧ (∀ x, (f ≤ x ∧ x < t) ↔
        ∃ s ∈ split_period_into_shifts f t,
          s.actual_from ≤ x ∧ x < s.actual_to) := by
  have hchain := splitGo_chain (t - f) f t h0 h1 (le_refl _)
  exact ⟨hchain, chainFrom_nonempty hchain, chainFrom_pairwise hchain,
    chainFrom_union hchain⟩

/-- Witness for C1 at the concrete period [07:30 of day 0, 100000 s). -/
theorem claim_C1_split_tiles_period_witness :
    27000 ≤ 27000 ∧ 27000 < 100000 ∧
      chainFrom 27000 (split_period_into_shifts 27000 100000) 100000 :=
  ⟨by decide, by decide,
    (claim_C1_split_tiles_period 27000 100000 (by decide) (by decide)).1⟩

/-- Claim C6: splitting 25.01.2026 08:00 .. 26.01.2026 08:00 yields exactly
the three shifts 25.01.2026 morning clipped to [08:00, 19:30), 25.01.2026
evening = [19:30, 07:30 next day), and 26.01.2026 morning clipped to
[07:30, 08:00).  A key `⟨Calendar.dayOrdinal 2026 1 d - 1, st⟩` is the
embedding of the source string key `"d.01.2026_st"`. -/
theorem claim_C6_split_example :
    split_period_into_shifts (Calendar.epochSeconds 25 1 2026 8 0 0)
        (Calendar.epochSeconds 26 1 2026 8 0 0) =
      [ { key := ⟨Calendar.dayOrdinal 2026 1 25 - 1, .morning⟩,
          from_dt := Calendar.epochSeconds 25 1 2026 7 30 0,
          to_dt := Calendar.epochSeconds 25 1 2026 19 30 0,
          actual_from := Calendar.epochSeconds 25 1 2026 8 0 0,
          actual_to := Calendar.epochSeconds 25 1 2026 19 30 0 },
        { key := ⟨Calendar.dayOrdinal 2026 1 25 - 1, .evening⟩,
          from_dt := Calendar.epochSeconds 25 1 2026 19 30 0,
          to_dt := Calendar.epochSeconds 26 1 2026 7 30 0,
          actual_from := Calendar.epochSeconds 25 1 2026 19 30 0,
          actual_to := Calendar.epochSeconds 26 1 2026 7 30 0 },
        { key := ⟨Calendar.dayOrdinal 2026 1 26 - 1, .morning⟩,
          from_dt := Calendar.epochSeconds 26 1 2026 7 30 0,
          to_dt := Calendar.epochSeconds 26 1 2026 19 30 0,
          actual_from := Calendar.epochSeconds 26 1 2026 7 30 0,
          actual_to := Calendar.epochSeconds 26 1 2026 8 0 0 } ] := by
  decide


end Shifts

namespace Client

/-- Claim C2 counterexample: against a service that answers 429 to the
first five requests, `_make_request` (with the default
`retry_count = 3`) does make a sixth request — it succeeds — so five
consecutive 429 responses do not yield Fatal and a sixth attempt is made,
contrary to the claim. -/
theorem claim_C2_counterexample :
    make_request 3 fiveTimes429ThenOk =
      ⟨.success 0, 6, [10, 20, 30, 40, 50], []⟩ ∧
    ¬ ((make_request 3 fiveTimes429ThenOk).requests = 5 ∧
       (make_request 3 fiveTimes429ThenOk).outcome = .fatal .rateLimited) := by
  decide

/-- Claim C2 (amended): a 429 response makes the client sleep
`10 * rate_limit_retries` seconds and retry without consuming a regular
attempt, bounded by `max_rate_limit_retries = 5`; the SIXTH consecutive
429 exceeds the bound and raises the rate-limited `RuntimeError`.  Against
any service answering 429 to the first six requests, the call (default
`retry_count = 3`) issues exactly six requests, sleeps 10,20,30,40,50
seconds after the first five, and fails fatal after the sixth — no seventh
attempt is made. -/
theorem claim_C2_rate_limit_bound (resps : Nat → Resp)
    (h : ∀ i, i < 6 → resps i = Resp.http 429) :
    make_request 3 resps =
      ⟨.fatal .rateLimited, 6, [10, 20, 30, 40, 50], []⟩ := by
  have h0 := h 0 (by omega)
  have h1 := h 1 (by omega)
  have h2 := h 2 (by omega)
  have h3 := h 3 (by omega)
  have h4 := h 4 (by omega)
  have h5 := h 5 (by omega)
  simp [make_request, mrGo, maxRateLimitRetries, h0, h1, h2, h3, h4, h5]

/-- Witness for the amended C2 at the all-429 service. -/
theorem claim_C2_rate_limit_bound_witness :
    (∀ i, i < 6 → always429 i = Resp.http 429) ∧
    make_request 3 always429 =
      ⟨.fatal .rateLimited, 6, [10, 20, 30, 40, 50], []⟩ :=
  ⟨fun _ _ => rfl, claim_C2_rate_limit_bound always429 (fun _ _ => rfl)⟩

end Client

namespace Parser

/-- Claim C10: a track with at most two points (including the empty and
single-point tracks) is returned unchanged by `_simplify_track`,
regardless of the interval and of whether the timestamps parse. -/
theorem claim_C10_short_track_identity (track : List TrackPoint)
    (interval : ℤ) (h : track.length ≤ 2) :
    _simplify_track track interval = track := by
  unfold _simplify_track
  rw [if_pos h]

/-- Witness for C10 at a two-point track with unparseable timestamps and
a non-default interval. -/
theorem claim_C10_short_track_identity_witness :
    ([⟨0, 0, "bad", none⟩, ⟨1, 1, "", none⟩] : List TrackPoint).length ≤ 2 ∧
    _simplify_track [⟨0, 0, "bad", none⟩, ⟨1, 1, "", none⟩] 7 =
      [⟨0, 0, "bad", none⟩, ⟨1, 1, "", none⟩] :=
  ⟨by decide,
    claim_C10_short_track_identity [⟨0, 0, "bad", none⟩, ⟨1, 1, "", none⟩] 7
      (by decide)⟩

/-- Claim C9: a raw duration field equal to 0 seconds makes the
corresponding hours-derived field `None` rather than `0.0`, because the
conversion is guarded by Python truthiness (`if result[k]:`). -/
theorem claim_C9_zero_duration_null_hours (d : RawMonitoring) :
    (d.movingTime = some 0 →
        (parse_monitoring (some d)).mon_moving_time_hours = none) ∧
    (d.engineTime = some 0 →
        (parse_monitoring (some d)).mon_engine_time_hours = none) ∧
    (d.engineIdlingTime = some 0 →
        (parse_monitoring (some d)).mon_idling_time_hours = none) := by
  refine ⟨fun h => ?_, fun h => ?_, fun h => ?_⟩ <;>
    simp [parse_monitoring, hoursField, h]

/-- Witness for C9 at a payload with all three durations 0. -/
theorem claim_C9_zero_duration_null_hours_witness :
    zeroTimesRaw.movingTime = some 0 ∧
    (parse_monitoring (some zeroTimesRaw)).mon_moving_time_hours = none ∧
    (parse_monitoring (some zeroTimesRaw)).mon_engine_time_hours = none ∧
    (parse_monitoring (some zeroTimesRaw)).mon_idling_time_hours = none :=
  ⟨rfl,
    (claim_C9_zero_duration_null_hours zeroTimesRaw).1 rfl,
    (claim_C9_zero_duration_null_hours zeroTimesRaw).2.1 rfl,
    (claim_C9_zero_duration_null_hours zeroTimesRaw).2.2 rfl⟩

end Parser

namespace Fetcher

theorem flatten_addToGroups (gs : List (Nat × List Task)) (t : Task) :
    ((addToGroups gs t).map Prod.snd).flatten.Perm
      ((gs.map Prod.snd).flatten ++ [t]) := by
  induction gs with
  | nil => simp [addToGroups]
  | cons p rest ih =>
      obtain ⟨v, g⟩ := p
      by_cases h : v = t.ts_id_mo
      · simp only [addToGroups, if_pos h, List.map_cons, List.flatten_cons]
        calc (g ++ [t]) ++ ((rest.map Prod.snd).flatten)
            = g ++ ([t] ++ (rest.map Prod.snd).flatten) := by
              rw [List.append_assoc]
          _ ~ g ++ ((rest.map Prod.snd).flatten ++ [t]) :=
              List.Perm.append_left g List.perm_append_comm
          _ = (g ++ (rest.map Prod.snd).flatten) ++ [t] := by
              rw [List.append_assoc]
      · simp only [addToGroups, if_neg h, List.map_cons, List.flatten_cons]
        calc g ++ ((addToGroups rest t).map Prod.snd).flatten
            ~ g ++ (((rest.map Prod.snd).flatten) ++ [t]) :=
              List.Perm.append_left g ih
          _ = (g ++ (rest.map Prod.snd).flatten) ++ [t] := by
              rw [List.append_assoc]

theorem by_vehicle_flatten_perm (tasks : List Task) :
    ((by_vehicle tasks).map Prod.snd).flatten.Perm tasks := by
  suffices h : ∀ gs : List (Nat × List Task),
      (((tasks.foldl addToGroups gs).map Prod.snd).flatten).Perm
        ((gs.map Prod.snd).flatten ++ tasks) by
    simpa [by_vehicle] using h []
  induction tasks with
  | nil => intro gs; simp
  | cons t rest ih =>
      intro gs
      simp only [List.foldl_cons]
      refine (ih (addToGroups gs t)).trans ?_
      refine (List.Perm.append_right rest (flatten_addToGroups gs t)).trans ?_
      rw [List.append_assoc]
      exact List.Perm.refl _

theorem heads_tails_perm (gs : List (List Task)) :
    gs.flatten.Perm
      (gs.filterMap List.head? ++ (gs.map List.tail).flatten) := by
  induction gs with
  | nil => simp
  | cons g rest ih =>
      cases g with
      | nil => simpa using ih
      | cons a as =>
          simp only [List.flatten_cons, List.filterMap_cons, List.map_cons,
            List.head?_cons, List.tail_cons, List.cons_append]
          apply List.Perm.cons
          calc as ++ rest.flatten
              ~ as ++ (rest.filterMap List.head? ++ (rest.map List.tail).flatten) :=
                List.Perm.append_left as ih
            _ = (as ++ rest.filterMap List.head?) ++ (rest.map List.tail).flatten := by
                rw [List.append_assoc]
            _ ~ (rest.filterMap List.head? ++ as) ++ (rest.map List.tail).flatten :=
                List.Perm.append_right _ List.perm_append_comm
            _ = rest.filterMap List.head? ++ (as ++ (rest.map List.tail).flatten) := by
                rw [List.append_assoc]

theorem sum_map_length_tail_le (gs : List (List Task)) :
    ((gs.map List.tail).map List.length).sum ≤ (gs.map List.length).sum := by
  induction gs with
  | nil => simp
  | cons g rest ih =>
      have h : g.tail.length ≤ g.length := by cases g <;> simp
      simp only [List.map_cons, List.sum_cons]
      omega

theorem sum_map_length_tail_lt (gs : List (List Task))
    (h : ¬ gs.all List.isEmpty = true) :
    ((gs.map List.tail).map List.length).sum < (gs.map List.length).sum := by
  induction gs with
  | nil => simp at h
  | cons g rest ih =>
      cases g with
      | nil =>
          have h2 : ¬ rest.all List.isEmpty = true := by simpa using h
          have h3 := ih h2
          simpa using h3
      | cons a as =>
          have hle := sum_map_length_tail_le rest
          simp only [List.map_cons, List.sum_cons, List.tail_cons,
            List.length_cons]
          omega

theorem flatten_eq_nil_of_all_isEmpty (gs : List (List Task))
    (h : gs.all List.isEmpty = true) : gs.flatten = [] := by
  induction gs with
  | nil => rfl
  | cons g rest ih =>
      simp only [List.all_cons, Bool.and_eq_true] at h
      cases g with
      | nil => simpa using ih h.2
      | cons a as => simp at h

theorem interleaveGo_perm (fuel : Nat) :
    ∀ gs : List (List Task), (gs.map List.length).sum ≤ fuel →
      (interleaveGo fuel gs).Perm gs.flatten := by
  induction fuel with
  | zero =>
      intro gs h
      have hnil : gs.flatten = [] := by
        have hlen : gs.flatten.length = 0 := by
          rw [List.length_flatten]; omega
        exact List.eq_nil_of_length_eq_zero hlen
      simp [interleaveGo, hnil]
  | succ n ih =>
      intro gs h
      by_cases hall : gs.all List.isEmpty = true
      · simp [interleaveGo, hall, flatten_eq_nil_of_all_isEmpty gs hall]
      · have hcond : ¬ (gs.all List.isEmpty = true) := hall
        simp only [interleaveGo, if_neg hcond]
        have hlt := sum_map_length_tail_lt gs hall
        have hrec := ih (gs.map List.tail) (by omega)
        exact (List.Perm.append_left _ hrec).trans (heads_tails_perm gs).symm

theorem reorder_perm (tasks : List Task) :
    (_reorder_tasks_for_rate_limit tasks).Perm tasks := by
  have hbv := by_vehicle_flatten_perm tasks
  have hlen : (((by_vehicle tasks).map Prod.snd).map List.length).sum =
      tasks.length := by
    rw [← List.length_flatten]; exact hbv.length_eq
  unfold _reorder_tasks_for_rate_limit
  exact (interleaveGo_perm tasks.length _ (le_of_eq hlen)).trans hbv

/-- Claim C7: the interleaver returns a permutation of its input (it
groups tasks by vehicle preserving per-group order and round-robins over
the groups in first-appearance order until exhaustion — that is the very
definition of `_reorder_tasks_for_rate_limit`), and on the spec's example
(vehicles 1,2,1,3,1,3) it yields 1,2,3,1,3,1. -/
theorem claim_C7_interleaver :
    (∀ tasks : List Task, (_reorder_tasks_for_rate_limit tasks).Perm tasks) ∧
    _reorder_tasks_for_rate_limit exInterleaveTasks =
      [mkTask 1 "A1", mkTask 2 "B1", mkTask 3 "C1",
       mkTask 1 "A2", mkTask 3 "C2", mkTask 1 "A3"] :=
  ⟨reorder_perm, by decide⟩

end Fetcher

namespace Fetcher

theorem distributeGo_length (n : Nat) :
    ∀ (rest : List Task) (i : Nat) (qs : List (List Task)),
      (distributeGo n i rest qs).length = qs.length := by
  intro rest
  induction rest with
  | nil => intro i qs; rfl
  | cons t r ih =>
      intro i qs
      simp only [distributeGo]
      rw [ih]
      exact List.length_set qs _ _

theorem distributeGo_getD (n j : Nat) (hj : j < n) :
    ∀ (rest : List Task) (i : Nat) (qs : List (List Task)), qs.length = n →
      (distributeGo n i rest qs).getD j [] =
        qs.getD j [] ++
          ((List.enumFrom i rest).filter
            (fun p => p.1 % n == j)).map Prod.snd := by
  intro rest
  induction rest with
  | nil => intro i qs hlen; simp [distributeGo]
  | cons t r ih =>
      intro i qs hlen
      simp only [distributeGo]
      rw [ih (i + 1) _ (by rw [List.length_set]; exact hlen)]
      by_cases hij : i % n = j
      · have hset : (qs.set (i % n) (qs.getD (i % n) [] ++ [t])).getD j [] =
            qs.getD j [] ++ [t] := by
          subst hij
          simp [List.getD_eq_getElem?_getD, List.getElem?_set, hlen, hj]
        rw [hset]
        simp only [List.enumFrom_cons, List.filter_cons]
        rw [if_pos (by simpa using hij)]
        simp [List.append_assoc]
      · have hset : (qs.set (i % n) (qs.getD (i % n) [] ++ [t])).getD j [] =
            qs.getD j [] := by
          simp only [List.getD_eq_getElem?_getD, List.getElem?_set]
          rw [if_neg hij]
        rw [hset]
        simp only [List.enumFrom_cons, List.filter_cons]
        rw [if_neg (by simpa using hij)]

theorem task_queues_getD (tasks : List Task) (n j : Nat) (hj : j < n) :
    (task_queues tasks n).getD j [] =
      ((tasks.enum).filter (fun p => p.1 % n == j)).map Prod.snd := by
  unfold task_queues
  rw [distributeGo_getD n j hj tasks 0 _ (by simp)]
  simp [List.enum, List.getD_eq_getElem?_getD, List.getElem?_replicate, hj]

theorem workerGo_trace (oracle : Task → TaskOutcome) :
    ∀ (q : List Task) (acc : WorkerRun),
      (workerGo oracle q acc).trace = acc.trace ++ q.map taskKey := by
  intro q
  induction q with
  | nil => intro acc; simp [workerGo]
  | cons t r ih =>
      intro acc
      simp only [workerGo]
      rw [ih]
      simp [List.append_assoc]

theorem worker_trace (oracle : Task → TaskOutcome) (q : List Task) :
    (worker oracle q).trace = q.map taskKey := by
  simp [worker, workerGo_trace]

/-- Claim C3 counterexample: with two credentials the six example tasks
are partitioned by index parity, but the worker for queue 0 processes it
in partition order — the interleaver applied to that queue would give a
different order, so workers do not reorder their partitions. -/
theorem claim_C3_counterexample :
    task_queues exParallelTasks 2 =
      [[mkTask 1 "p0", mkTask 1 "p2", mkTask 2 "p4"],
       [mkTask 9 "p1", mkTask 9 "p3", mkTask 9 "p5"]] ∧
    (worker allNotFound [mkTask 1 "p0", mkTask 1 "p2", mkTask 2 "p4"]).trace =
      [("p0", 1), ("p2", 1), ("p4", 2)] ∧
    (_reorder_tasks_for_rate_limit
        [mkTask 1 "p0", mkTask 1 "p2", mkTask 2 "p4"]).map taskKey =
      [("p0", 1), ("p4", 2), ("p2", 1)] ∧
    (worker allNotFound [mkTask 1 "p0", mkTask 1 "p2", mkTask 2 "p4"]).trace ≠
      (_reorder_tasks_for_rate_limit
        [mkTask 1 "p0", mkTask 1 "p2", mkTask 2 "p4"]).map taskKey := by
  refine ⟨by decide, by decide, by decide, by decide⟩

/-- Claim C3 (amended): with more than one credential the unreordered task
list is partitioned across credentials by modulo round-robin (queue `j`
receives exactly the tasks whose index is `≡ j (mod n)`, in order), and
each worker processes its own partition in that partition order — it does
NOT apply the task interleaver to it (the interleaver runs only in the
single-credential sequential path). -/
theorem claim_C3_partition_no_reorder :
    (∀ (tasks : List Task) (n j : Nat), j < n →
        (task_queues tasks n).getD j [] =
          ((tasks.enum).filter (fun p => p.1 % n == j)).map Prod.snd) ∧
    (∀ (oracle : Task → TaskOutcome) (q : List Task),
        (worker oracle q).trace = q.map taskKey) :=
  ⟨fun tasks n j hj => task_queues_getD tasks n j hj, worker_trace⟩

/-- Witness for the amended C3 at the six example tasks, two credentials,
queue 0. -/
theorem claim_C3_partition_no_reorder_witness :
    ((0 : Nat) < 2 ∧
      (task_queues exParallelTasks 2).getD 0 [] =
        ((exParallelTasks.enum).filter
          (fun p => p.1 % 2 == 0)).map Prod.snd) ∧
    (worker allNotFound exParallelTasks).trace =
      exParallelTasks.map taskKey :=
  ⟨⟨by decide, claim_C3_partition_no_reorder.1 exParallelTasks 2 0 (by decide)⟩,
    claim_C3_partition_no_reorder.2 allNotFound exParallelTasks⟩

end Fetcher

namespace Fetcher

theorem seqGo_callback_calls (oracle : Task → TaskOutcome) (total : Nat) :
    ∀ (ts : List Task) (i : Nat) (acc : SeqRun),
      (seqGo oracle total ts i acc).callback_calls =
        acc.callback_calls ++
          (List.range ts.length).map (fun k => (i + k + 1, total)) := by
  intro ts
  induction ts with
  | nil => intro i acc; simp [seqGo]
  | cons t r ih =>
      intro i acc
      have hmap : (List.range (r.length + 1)).map (fun k => (i + k + 1, total)) =
          (i + 1, total) ::
            (List.range r.length).map (fun k => (i + 1 + k + 1, total)) := by
        rw [List.range_succ_eq_map, List.map_cons, List.map_map]
        have h2 : ((fun k => (i + k + 1, total)) ∘ Nat.succ) =
            (fun k => (i + 1 + k + 1, total)) := by
          funext a
          simp only [Function.comp_apply, Prod.mk.injEq]
          exact ⟨by omega, trivial⟩
        rw [h2]
      simp only [seqGo]
      rw [ih (i + 1)]
      rw [List.length_cons, hmap]
      simp [List.append_assoc]

theorem sequential_callback_calls (oracle : Task → TaskOutcome)
    (tasks : List Task) :
    (_fetch_monitoring_sequential oracle tasks).callback_calls =
      (List.range tasks.length).map (fun k => (k + 1, tasks.length)) := by
  unfold _fetch_monitoring_sequential
  rw [seqGo_callback_calls]
  have hlen : (_reorder_tasks_for_rate_limit tasks).length = tasks.length :=
    (reorder_perm tasks).length_eq
  simp [hlen]

/-- Claim C4 counterexample: a collection run with two credentials and one
task takes the parallel path, which never invokes the caller-supplied
progress callback, so the callback is not called after every completed
task (here: zero calls for one completed task). -/
theorem claim_C4_counterexample :
    (fetch_monitoring_batch allNotFound ["a", "b"]
        [mkTask 1 "p0"]).callback_calls = [] ∧
    (fetch_monitoring_batch allNotFound ["a", "b"]
        [mkTask 1 "p0"]).callback_calls.length ≠ 1 := by
  refine ⟨by decide, by decide⟩

/-- Claim C4 (amended): in a single-credential run the sequential loop
invokes the callback after every completed task (Empty outcomes included)
with arguments `(completedCount, totalCount)`: exactly N calls, with
strictly increasing `completedCount` and constant `totalCount = N`.  In a
multi-credential run the parallel path never invokes the callback. -/
theorem claim_C4_progress_single_credential (oracle : Task → TaskOutcome)
    (tokens : List String) (tasks : List Task) (h : tokens.length = 1) :
    (fetch_monitoring_batch oracle tokens tasks).callback_calls =
      (List.range tasks.length).map (fun k => (k + 1, tasks.length)) ∧
    (fetch_monitoring_batch oracle tokens tasks).callback_calls.length =
      tasks.length ∧
    (fetch_monitoring_batch oracle tokens tasks).callback_calls.Pairwise
      (fun a b => a.1 < b.1) ∧
    (∀ c ∈ (fetch_monitoring_batch oracle tokens tasks).callback_calls,
      c.2 = tasks.length) ∧
    (∀ (oracle2 : Task → TaskOutcome) (n : Nat) (tasks2 : List Task),
      (_fetch_monitoring_parallel oracle2 n tasks2).callback_calls = []) := by
  have hbatch : fetch_monitoring_batch oracle tokens tasks =
      ⟨(_fetch_monitoring_sequential oracle tasks).results,
       (_fetch_monitoring_sequential oracle tasks).callback_calls⟩ := by
    unfold fetch_monitoring_batch
    rw [if_neg (by omega)]
  rw [hbatch]
  have hc := sequential_callback_calls oracle tasks
  refine ⟨hc, by rw [hc]; simp, ?_, ?_, fun _ _ _ => rfl⟩
  · rw [hc]
    refine List.pairwise_map.mpr ?_
    refine (List.sorted_lt_range tasks.length).imp ?_
    intro a b hab
    simpa using hab
  · rw [hc]
    intro c hcmem
    rw [List.mem_map] at hcmem
    obtain ⟨k, _, rfl⟩ := hcmem
    rfl

/-- Witness for the amended C4: one credential, the six example tasks. -/
theorem claim_C4_progress_single_credential_witness :
    (["tok"] : List String).length = 1 ∧
    (fetch_monitoring_batch allNotFound ["tok"]
        exParallelTasks).callback_calls =
      (List.range exParallelTasks.length).map
        (fun k => (k + 1, exParallelTasks.length)) :=
  ⟨rfl,
    (claim_C4_progress_single_credential allNotFound ["tok"]
      exParallelTasks rfl).1⟩

end Fetcher

namespace Fetcher

theorem dictUpdate_cons {α β : Type} [DecidableEq α] (m : List (α × β))
    (p : α × β) (rest : List (α × β)) :
    dictUpdate m (p :: rest) = dictUpdate (dictStore m p.1 p.2) rest := rfl

theorem mem_keys_dictStore_self {α β : Type} [DecidableEq α]
    (m : List (α × β)) (k : α) (v : β) :
    k ∈ (dictStore m k v).map Prod.fst := by
  induction m with
  | nil => simp [dictStore]
  | cons p rest ih =>
      obtain ⟨k0, v0⟩ := p
      by_cases h : k0 = k
      · simp [dictStore, h]
      · simp only [dictStore, if_neg h, List.map_cons, List.mem_cons]
        right
        exact ih

theorem mem_keys_dictStore_mono {α β : Type} [DecidableEq α]
    (m : List (α × β)) (k kp : α) (v : β) (h : kp ∈ m.map Prod.fst) :
    kp ∈ (dictStore m k v).map Prod.fst := by
  induction m with
  | nil => simp at h
  | cons p rest ih =>
      obtain ⟨k0, v0⟩ := p
      simp only [List.map_cons, List.mem_cons] at h
      by_cases hk : k0 = k
      · simp only [dictStore, if_pos hk, List.map_cons, List.mem_cons]
        exact h
      · simp only [dictStore, if_neg hk, List.map_cons, List.mem_cons]
        rcases h with h | h
        · exact Or.inl h
        · exact Or.inr (ih h)

theorem mem_keys_dictUpdate_left {α β : Type} [DecidableEq α]
    (localMap : List (α × β)) : ∀ (m : List (α × β)) (k : α),
      k ∈ m.map Prod.fst → k ∈ (dictUpdate m localMap).map Prod.fst := by
  induction localMap with
  | nil => intro m k h; simpa [dictUpdate] using h
  | cons p rest ih =>
      intro m k h
      rw [dictUpdate_cons]
      exact ih _ k (mem_keys_dictStore_mono _ _ _ _ h)

theorem mem_keys_dictUpdate_right {α β : Type} [DecidableEq α]
    (localMap : List (α × β)) : ∀ (m : List (α × β)) (k : α),
      k ∈ localMap.map Prod.fst →
      k ∈ (dictUpdate m localMap).map Prod.fst := by
  induction localMap with
  | nil => intro m k h; simp at h
  | cons p rest ih =>
      intro m k h
      rw [dictUpdate_cons]
      simp only [List.map_cons, List.mem_cons] at h
      rcases h with h | h
      · subst h
        exact mem_keys_dictUpdate_left rest _ _
          (mem_keys_dictStore_self m _ p.2)
      · exact ih _ k h

theorem mem_keys_foldl_dictUpdate {α β : Type} [DecidableEq α]
    (rs : List (List (α × β))) : ∀ (m : List (α × β)) (k : α),
      (k ∈ m.map Prod.fst ∨ ∃ r ∈ rs, k ∈ r.map Prod.fst) →
      k ∈ (rs.foldl dictUpdate m).map Prod.fst := by
  induction rs with
  | nil =>
      intro m k h
      rcases h with h | ⟨r, hr, _⟩
      · simpa using h
      · cases hr
  | cons r rest ih =>
      intro m k h
      simp only [List.foldl_cons]
      apply ih
      rcases h with h | ⟨r0, hr0, hk⟩
      · exact Or.inl (mem_keys_dictUpdate_left _ _ _ h)
      · rcases List.mem_cons.mp hr0 with rfl | hmem
        · exact Or.inl (mem_keys_dictUpdate_right _ _ _ hk)
        · exact Or.inr ⟨r0, hmem, hk⟩

theorem workerGo_keys_mono (oracle : Task → TaskOutcome) :
    ∀ (q : List Task) (acc : WorkerRun) (k : String × Nat),
      k ∈ acc.results.map Prod.fst →
      k ∈ (workerGo oracle q acc).results.map Prod.fst := by
  intro q
  induction q with
  | nil => intro acc k h; simpa [workerGo] using h
  | cons t r ih =>
      intro acc k h
      simp only [workerGo]
      exact ih _ k (mem_keys_dictStore_mono _ _ _ _ h)

theorem workerGo_keys (oracle : Task → TaskOutcome) :
    ∀ (q : List Task) (acc : WorkerRun) (t : Task), t ∈ q →
      taskKey t ∈ (workerGo oracle q acc).results.map Prod.fst := by
  intro q
  induction q with
  | nil => intro acc t ht; cases ht
  | cons s r ih =>
      intro acc t ht
      rcases List.mem_cons.mp ht with rfl | hmem
      · simp only [workerGo]
        exact workerGo_keys_mono oracle r _ _ (mem_keys_dictStore_self _ _ _)
      · simp only [workerGo]
        exact ih _ t hmem

theorem worker_keys (oracle : Task → TaskOutcome) (q : List Task) (t : Task)
    (h : t ∈ q) : taskKey t ∈ (worker oracle q).results.map Prod.fst :=
  workerGo_keys oracle q _ t h

theorem seqGo_keys_mono (oracle : Task → TaskOutcome) (total : Nat) :
    ∀ (ts : List Task) (i : Nat) (acc : SeqRun) (k : String × Nat),
      k ∈ acc.results.map Prod.fst →
      k ∈ (seqGo oracle total ts i acc).results.map Prod.fst := by
  intro ts
  induction ts with
  | nil => intro i acc k h; simpa [seqGo] using h
  | cons t r ih =>
      intro i acc k h
      simp only [seqGo]
      exact ih _ _ k (mem_keys_dictStore_mono _ _ _ _ h)

theorem seqGo_keys (oracle : Task → TaskOutcome) (total : Nat) :
    ∀ (ts : List Task) (i : Nat) (acc : SeqRun) (t : Task), t ∈ ts →
      taskKey t ∈ (seqGo oracle total ts i acc).results.map Prod.fst := by
  intro ts
  induction ts with
  | nil => intro i acc t ht; cases ht
  | cons s r ih =>
      intro i acc t ht
      rcases List.mem_cons.mp ht with rfl | hmem
      · simp only [seqGo]
        exact seqGo_keys_mono oracle total r _ _ _
          (mem_keys_dictStore_self _ _ _)
      · simp only [seqGo]
        exact ih _ _ t hmem

theorem flatten_set_append (qs : List (List Task)) :
    ∀ (m : Nat) (t : Task), m < qs.length →
      (qs.set m (qs.getD m [] ++ [t])).flatten.Perm (qs.flatten ++ [t]) := by
  induction qs with
  | nil => intro m t hm; simp at hm
  | cons q rest ih =>
      intro m t hm
      cases m with
      | zero =>
          simp only [List.set_cons_zero, List.getD_cons_zero,
            List.flatten_cons]
          calc (q ++ [t]) ++ rest.flatten
              = q ++ ([t] ++ rest.flatten) := by rw [List.append_assoc]
            _ ~ q ++ (rest.flatten ++ [t]) :=
                List.Perm.append_left q List.perm_append_comm
            _ = (q ++ rest.flatten) ++ [t] := by rw [List.append_assoc]
      | succ m2 =>
          simp only [List.set_cons_succ, List.getD_cons_succ,
            List.flatten_cons]
          rw [List.append_assoc]
          exact List.Perm.append_left q (ih m2 t (by simpa using hm))

theorem distributeGo_flatten_perm (n : Nat) (hn : 0 < n) :
    ∀ (rest : List Task) (i : Nat) (qs : List (List Task)), qs.length = n →
      (distributeGo n i rest qs).flatten.Perm (qs.flatten ++ rest) := by
  intro rest
  induction rest with
  | nil => intro i qs h; simp [distributeGo]
  | cons t r ih =>
      intro i qs h
      simp only [distributeGo]
      refine (ih (i + 1) _ (by rw [List.length_set]; exact h)).trans ?_
      have hperm := flatten_set_append qs (i % n) t
        (by rw [h]; exact Nat.mod_lt i hn)
      refine (List.Perm.append_right r hperm).trans ?_
      rw [List.append_assoc]
      exact List.Perm.refl _

theorem replicate_nil_flatten (n : Nat) :
    (List.replicate n ([] : List Task)).flatten = [] := by
  induction n with
  | zero => rfl
  | succ k ih => simp [List.replicate, ih]

theorem task_queues_flatten_perm (tasks : List Task) (n : Nat) (hn : 0 < n) :
    (task_queues tasks n).flatten.Perm tasks := by
  unfold task_queues
  have h := distributeGo_flatten_perm n hn tasks 0 (List.replicate n [])
    (by simp)
  simpa [replicate_nil_flatten] using h

theorem batch_results_parallel (oracle : Task → TaskOutcome)
    (tokens : List String) (tasks : List Task) (h : tokens.length > 1) :
    (fetch_monitoring_batch oracle tokens tasks).results =
      (_fetch_monitoring_parallel oracle tokens.length tasks).results := by
  unfold fetch_monitoring_batch
  rw [if_pos h]

theorem batch_results_sequential (oracle : Task → TaskOutcome)
    (tokens : List String) (tasks : List Task) (h : ¬ tokens.length > 1) :
    (fetch_monitoring_batch oracle tokens tasks).results =
      (_fetch_monitoring_sequential oracle tasks).results := by
  unfold fetch_monitoring_batch
  rw [if_neg h]

/-- Claim C8: whatever the per-task outcomes, the batch collector is a
total function that stores one entry per processed task — every input
task's key is present in the returned aggregate map (both in the
single-credential sequential path and in the multi-credential parallel
path), and a `NotFoundError` or any other per-task exception is converted
into the empty summary rather than propagated. -/
theorem claim_C8_fail_soft (oracle : Task → TaskOutcome)
    (tokens : List String) (tasks : List Task) (t : Task) (h : t ∈ tasks) :
    taskKey t ∈
      (fetch_monitoring_batch oracle tokens tasks).results.map Prod.fst ∧
    ((oracle t = .notFound ∨ oracle t = .error) →
      storeValue oracle t = Parser._empty_monitoring) := by
  constructor
  · by_cases hp : tokens.length > 1
    · rw [batch_results_parallel oracle tokens tasks hp]
      unfold _fetch_monitoring_parallel
      apply mem_keys_foldl_dictUpdate
      right
      have hflat := task_queues_flatten_perm tasks tokens.length (by omega)
      have ht2 : t ∈ (task_queues tasks tokens.length).flatten :=
        hflat.mem_iff.mpr h
      obtain ⟨q, hq, htq⟩ := List.mem_flatten.mp ht2
      exact ⟨(worker oracle q).results,
        List.mem_map_of_mem _ hq, worker_keys oracle q t htq⟩
    · rw [batch_results_sequential oracle tokens tasks hp]
      unfold _fetch_monitoring_sequential
      apply seqGo_keys
      exact (reorder_perm tasks).mem_iff.mpr h
  · intro ho
    rcases ho with ho | ho <;> simp [storeValue, ho, Parser.parse_monitoring]

/-- Witness for C8: two credentials, six tasks, all-NotFound service. -/
theorem claim_C8_fail_soft_witness :
    (mkTask 1 "p0") ∈ exParallelTasks ∧
    taskKey (mkTask 1 "p0") ∈
      (fetch_monitoring_batch allNotFound ["a", "b"]
        exParallelTasks).results.map Prod.fst ∧
    storeValue allNotFound (mkTask 1 "p0") = Parser._empty_monitoring :=
  ⟨by decide,
    (claim_C8_fail_soft allNotFound ["a", "b"] exParallelTasks
      (mkTask 1 "p0") (by decide)).1,
    (claim_C8_fail_soft allNotFound ["a", "b"] exParallelTasks
      (mkTask 1 "p0") (by decide)).2 (Or.inl rfl)⟩

end Fetcher

namespace Fetcher

/-- Claim C5 counterexample: the extractor emits tasks whose planned
window strings are equal (an empty window under any reading of the
times) and tasks whose window strings do not parse as datetimes at all —
it validates only non-emptiness of the strings, so such tasks ARE passed
to the collector. -/
theorem claim_C5_counterexample :
    (extract_monitoring_tasks exBadPL (fun _ => true)).map
        (fun t => (t.from_date, t.to_date)) =
      [("25.01.2026 08:00", "25.01.2026 08:00"),
       ("garbage", "more garbage")] ∧
    Parser._parse_datetime "garbage" = none ∧
    Parser._parse_datetime "more garbage" = none := by
  refine ⟨by decide, by decide, by decide⟩

/-- Claim C5 (amended): the extractor skips a whole trip record exactly
when its planned start or end string is missing or empty, so every
emitted task carries non-empty window strings; but it performs no date
parsing and no ordering check, so tasks with unparseable or
non-increasing windows are still emitted. -/
theorem claim_C5_window_strings_nonempty (pl_list : List PLRecord)
    (namePred : String → Bool) (t : Task)
    (h : t ∈ extract_monitoring_tasks pl_list namePred) :
    t.from_date ≠ "" ∧ t.to_date ≠ "" := by
  unfold extract_monitoring_tasks at h
  rw [List.mem_flatten] at h
  obtain ⟨l, hl, htl⟩ := h
  rw [List.mem_map] at hl
  obtain ⟨pl, _, rfl⟩ := hl
  by_cases hd : pl.dateOutPlan = "" ∨ pl.dateInPlan = ""
  · rw [if_pos hd] at htl
    cases htl
  · rw [if_neg hd] at htl
    rw [List.mem_filterMap] at htl
    obtain ⟨ts, _, hsome⟩ := htl
    push_neg at hd
    rcases hid : ts.idMO with _ | i
    · rw [hid] at hsome
      simp at hsome
    · rw [hid] at hsome
      by_cases hi : i = 0
      · simp [hi] at hsome
      · by_cases hn : namePred (ts.nameMO.getD "")
        · simp only [if_neg hi, if_pos hn, Option.some.injEq] at hsome
          subst hsome
          exact ⟨hd.1, hd.2⟩
        · simp [hi, hn] at hsome

/-- Witness for the amended C5 at the first emitted example task. -/
theorem claim_C5_window_strings_nonempty_witness :
    ({ pl_id := "T1_25.01.2026", ts_id_mo := 7, ts_reg_number := none,
       ts_name_mo := some "tyagach", from_date := "25.01.2026 08:00",
       to_date := "25.01.2026 08:00" } : Task) ∈
        extract_monitoring_tasks exBadPL (fun _ => true) ∧
    ("25.01.2026 08:00" : String) ≠ "" :=
  ⟨by decide,
    (claim_C5_window_strings_nonempty exBadPL (fun _ => true)
      { pl_id := "T1_25.01.2026", ts_id_mo := 7, ts_reg_number := none,
        ts_name_mo := some "tyagach", from_date := "25.01.2026 08:00",
        to_date := "25.01.2026 08:00" }
      (by decide)).1⟩

end Fetcher
